import Mathlib

/-!
Verification development for the Reelocator media-file mover.

The C++ core consists of three pure functions (`toLower`, `isTargetFile`,
`getUniqueDestinationPath`) plus a `main` driver that walks a source tree and
moves matching files into a destination directory, falling back from
`fs::rename` to `fs::copy_file` + `fs::remove`.

Embedding choices:
- a C++ `std::string` is a byte string, modelled as `List Nat` (byte values);
  `std::tolower` in the default locale lowercases only the ASCII bytes
  65..90, so `toLower` maps byte-wise;
- a filesystem path is its list of components, `List (List Nat)`;
- the filesystem itself is the (finite) list of paths of existing entries;
- the unbounded `while (true)` probe loop of `getUniqueDestinationPath` is
  given a fuel parameter; `none` means the loop is still running after `fuel`
  iterations;
- the fallible filesystem calls of the driver (`fs::rename`, `fs::copy_file`,
  `fs::remove`) are driven by per-call success oracles, modelling that each
  may throw `fs::filesystem_error` for an arbitrary environment reason.
-/

set_option autoImplicit false

/-- A byte string: the model of C++ `std::string`. -/
abbrev Str := List Nat

/-- Bytes of an ASCII string literal, for readable concrete inputs. -/
def strBytes (s : String) : Str := s.data.map Char.toNat

/-- One byte of `std::tolower` in the default locale: ASCII uppercase
bytes 65..90 gain 32, every other byte (including all non-ASCII bytes)
passes through. -/
def toLowerByte (b : Nat) : Nat :=
  if 65 ≤ b ∧ b ≤ 90 then b + 32 else b

/-- Model of the source function `toLower`: byte-wise ASCII lowercasing
via `std::transform` with `std::tolower`. -/
def toLower (value : Str) : Str := value.map toLowerByte

/-- The two media categories of the tool. -/
inductive MediaType where
  | Images
  | Videos
deriving DecidableEq

/-- The fixed image-extension table of `isTargetFile`. -/
def imageExtensions : List Str :=
  [strBytes ".jpg", strBytes ".jpeg", strBytes ".png", strBytes ".gif",
   strBytes ".bmp", strBytes ".tiff", strBytes ".tif", strBytes ".webp",
   strBytes ".heic", strBytes ".ico"]

/-- The fixed video-extension table of `isTargetFile`. -/
def videoExtensions : List Str :=
  [strBytes ".mp4", strBytes ".mov", strBytes ".avi", strBytes ".mkv",
   strBytes ".wmv", strBytes ".flv", strBytes ".webm", strBytes ".mpeg",
   strBytes ".mpg", strBytes ".m4v"]

/-- Index of the last occurrence of the dot byte 46 in a filename,
`none` when the filename has no dot. -/
def lastDotIdx : Str → Option Nat
  | [] => none
  | b :: rest =>
    match lastDotIdx rest with
    | some i => some (i + 1)
    | none => if b = 46 then some 0 else none

/-- `fs::path::extension()` on a filename: empty for `.` and `..`, empty when
the filename has no dot or its only rightmost dot is the leading character
(a dotfile), otherwise the suffix from the rightmost dot on. -/
def extensionOf (f : Str) : Str :=
  if f = strBytes "." ∨ f = strBytes ".." then []
  else
    match lastDotIdx f with
    | none => []
    | some 0 => []
    | some i => f.drop i

/-- `fs::path::stem()` on a filename: the filename stripped of
`extensionOf`. -/
def stemOf (f : Str) : Str :=
  if f = strBytes "." ∨ f = strBytes ".." then f
  else
    match lastDotIdx f with
    | none => f
    | some 0 => f
    | some i => f.take i

/-- A filesystem path, as its list of components. -/
abbrev FsPath := List Str

/-- `fs::path::filename()`: the last component of a path (empty for the
empty path). -/
def filenameOf (p : FsPath) : Str := p.getLast?.getD []

/-- Model of the source function `isTargetFile`: lowercase the extension of
the path and test membership in the table selected by the media type. -/
def isTargetFile (filePath : FsPath) (mediaType : MediaType) : Bool :=
  let ext := toLower (extensionOf (filenameOf filePath))
  if mediaType = MediaType.Images then
    decide (ext ∈ imageExtensions)
  else
    decide (ext ∈ videoExtensions)

/-- Little-endian decimal digits of a number, with a fuel bound so the
recursion is structural; fuel `n + 1` always suffices for input `n`. -/
def toDigitsRevFuel : Nat → Nat → List Nat
  | 0, _ => []
  | fuel + 1, n => if n < 10 then [n] else n % 10 :: toDigitsRevFuel fuel (n / 10)

/-- Model of `std::to_string` on a non-negative integer: its decimal byte
string (digit `d` is byte `48 + d`). -/
def natToString (n : Nat) : Str :=
  ((toDigitsRevFuel (n + 1) n).map (fun d => 48 + d)).reverse

/-- The numbered candidate filename built inside the probe loop:
`stem + "_" + std::to_string(counter) + extension` (byte 95 is the
underscore). -/
def numberedName (stem extension : Str) (counter : Nat) : Str :=
  stem ++ (95 :: natToString counter) ++ extension

/-- The `while (true)` probe loop of `getUniqueDestinationPath`, with fuel:
starting at `counter`, return the first numbered candidate path at which
`ex` reports no existing entry; `none` when `fuel` iterations all collide. -/
def probeLoop (ex : FsPath → Bool) (destinationDir : FsPath) (stem extension : Str) :
    Nat → Nat → Option FsPath
  | _, 0 => none
  | counter, fuel + 1 =>
    let candidate := destinationDir ++ [numberedName stem extension counter]
    if ex candidate then
      probeLoop ex destinationDir stem extension (counter + 1) fuel
    else
      some candidate

/-- Model of the source function `getUniqueDestinationPath`. `ex` is
`fs::exists` on the current filesystem; the unbounded loop is run for at
most `fuel` iterations. -/
def getUniqueDestinationPath (ex : FsPath → Bool) (destinationDir : FsPath)
    (filename : Str) (fuel : Nat) : Option FsPath :=
  let candidate := destinationDir ++ [filename]
  if ex candidate then
    probeLoop ex destinationDir (stemOf filename) (extensionOf filename) 1 fuel
  else
    some candidate

/-- The filesystem state: the list of paths of existing entries. -/
abbrev FS := List FsPath

/-- `fs::exists` on filesystem state `fs`. -/
def memFS (fs : FS) : FsPath → Bool := fun p => decide (p ∈ fs)

/-- Successful `fs::rename src dst`: the entry leaves `src` and appears
at `dst`. -/
def fsRename (fs : FS) (src dst : FsPath) : FS := dst :: fs.erase src

/-- Successful `fs::copy_file src dst`: a new entry appears at `dst`. -/
def fsCopy (fs : FS) (dst : FsPath) : FS := dst :: fs

/-- Successful `fs::remove p`: the entry at `p` disappears. -/
def fsRemove (fs : FS) (p : FsPath) : FS := fs.erase p

/-- One entry yielded by `fs::recursive_directory_iterator`: its directory
components, its filename, and whether it is a regular file. -/
structure Entry where
  dir : List Str
  name : Str
  isRegularFile : Bool
deriving DecidableEq

/-- The full path of a directory entry. -/
def Entry.path (e : Entry) : FsPath := e.dir ++ [e.name]

/-- Success oracles for the three fallible filesystem calls of one per-file
step; `false` models the call throwing `fs::filesystem_error`. -/
structure Oracles where
  renameOk : Bool
  copyOk : Bool
  removeOk : Bool
deriving DecidableEq

/-- One per-file log line of the driver: `Moved:` and
`Moved (copy+delete):` go to stdout, `Skipped:` to stderr. -/
inductive LogLine where
  | moved (src dst : FsPath)
  | movedViaCopy (src dst : FsPath)
  | skippedFile (src : FsPath)
deriving DecidableEq

/-- The driver's running state: filesystem, the two counters, and the
per-file log. -/
structure RunState where
  fs : FS
  movedCount : Nat
  skippedCount : Nat
  log : List LogLine
deriving DecidableEq

/-- The destination path the driver computes for an entry:
`getUniqueDestinationPath(destinationDir, currentPath.filename())`, run with
enough fuel for the current (finite) filesystem; termination (proved below)
makes the fallback value unreachable. -/
def finalDestinationFor (fs : FS) (destinationDir : FsPath) (e : Entry) : FsPath :=
  (getUniqueDestinationPath (memFS fs) destinationDir (filenameOf (Entry.path e))
      (fs.length + 1)).getD (destinationDir ++ [filenameOf (Entry.path e)])

/-- One iteration of the driver's traversal loop over a directory entry:
skip non-regular files and non-matching files; otherwise compute the unique
destination, try `fs::rename`, fall back to `fs::copy_file` + `fs::remove`,
and on a second failure count the file as skipped and log it. -/
def step (destinationDir : FsPath) (mediaType : MediaType) (st : RunState)
    (e : Entry) (o : Oracles) : RunState :=
  if e.isRegularFile = false then st
  else if isTargetFile (Entry.path e) mediaType = false then st
  else
    let currentPath := Entry.path e
    let finalDestination := finalDestinationFor st.fs destinationDir e
    if o.renameOk then
      { fs := fsRename st.fs currentPath finalDestination,
        movedCount := st.movedCount + 1,
        skippedCount := st.skippedCount,
        log := st.log ++ [LogLine.moved currentPath finalDestination] }
    else if o.copyOk then
      if o.removeOk then
        { fs := fsRemove (fsCopy st.fs finalDestination) currentPath,
          movedCount := st.movedCount + 1,
          skippedCount := st.skippedCount,
          log := st.log ++ [LogLine.movedViaCopy currentPath finalDestination] }
      else
        { fs := fsCopy st.fs finalDestination,
          movedCount := st.movedCount,
          skippedCount := st.skippedCount + 1,
          log := st.log ++ [LogLine.skippedFile currentPath] }
    else
      { fs := st.fs,
        movedCount := st.movedCount,
        skippedCount := st.skippedCount + 1,
        log := st.log ++ [LogLine.skippedFile currentPath] }

/-- The driver's traversal loop over the sequence of directory entries,
each paired with the oracles of its filesystem calls. -/
def runTraversal (destinationDir : FsPath) (mediaType : MediaType)
    (entries : List (Entry × Oracles)) (st : RunState) : RunState :=
  entries.foldl (fun s eo => step destinationDir mediaType s eo.1 eo.2) st

/-- The menu parse at the top of `main`: `"1"` is Images, `"2"` is Videos,
anything else is an input-validation error. -/
def mediaTypeOfChoice (choiceInput : Str) : Option MediaType :=
  if choiceInput = strBytes "1" then some MediaType.Images
  else if choiceInput = strBytes "2" then some MediaType.Videos
  else none

/-- A fatal error line written to stderr by `main` before exiting 1. -/
inductive ErrLine where
  | invalidChoice
  | badSource
  | sameSourceAndDestination
  | createDirFailed
deriving DecidableEq

/-- The observable outcome of one `main` run: exit code, final filesystem,
counters, per-file log, fatal error lines. -/
structure RunResult where
  exitCode : Nat
  fs : FS
  movedCount : Nat
  skippedCount : Nat
  log : List LogLine
  errs : List ErrLine
deriving DecidableEq

/-- Model of `main`: menu parse, source checks, source/destination
equivalence check, destination creation, then the traversal. The booleans
are the results of the `fs::exists` / `fs::is_directory` /
`fs::equivalent` probes and of the `fs::create_directories` call. -/
def mainRun (choiceInput : Str) (srcExists srcIsDir destExists equiv createOk : Bool)
    (destinationDir : FsPath) (entries : List (Entry × Oracles)) (fs0 : FS) : RunResult :=
  match mediaTypeOfChoice choiceInput with
  | none => ⟨1, fs0, 0, 0, [], [ErrLine.invalidChoice]⟩
  | some selectedType =>
    if srcExists = false ∨ srcIsDir = false then
      ⟨1, fs0, 0, 0, [], [ErrLine.badSource]⟩
    else if destExists = true ∧ equiv = true then
      ⟨1, fs0, 0, 0, [], [ErrLine.sameSourceAndDestination]⟩
    else if destExists = false ∧ createOk = false then
      ⟨1, fs0, 0, 0, [], [ErrLine.createDirFailed]⟩
    else
      let fs1 := if destExists then fs0 else destinationDir :: fs0
      let final := runTraversal destinationDir selectedType entries
        ⟨fs1, 0, 0, []⟩
      ⟨0, final.fs, final.movedCount, final.skippedCount, final.log, []⟩

/-- Value of a little-endian decimal digit list; left inverse of
`toDigitsRevFuel`, used to prove `natToString` injective. -/
def ofDigitsRev : List Nat → Nat
  | [] => 0
  | d :: ds => d + 10 * ofDigitsRev ds

/-- Concrete destination directory used by the witness instances. -/
def ddW : FsPath := [strBytes "dest"]

/-- Concrete matching regular-file entry used by the witness instances. -/
def eW : Entry := ⟨[strBytes "src"], strBytes "a.jpg", true⟩

/-- Concrete run state used by the witness instances: only the source file
exists. -/
def stW : RunState := ⟨[[strBytes "src", strBytes "a.jpg"]], 0, 0, []⟩

/-- Concrete filesystem with a collision at `capture.png` and at
`capture_1.png`, used by the uniquifier witness. -/
def uniqW : FS :=
  [[strBytes "dest", strBytes "capture.png"],
   [strBytes "dest", strBytes "capture_1.png"]]

/-! ### Helper lemmas -/

/-- A byte already outside the ASCII uppercase range is fixed by
`toLowerByte`. -/
lemma toLowerByte_of_not_upper {b : Nat} (h : ¬(65 ≤ b ∧ b ≤ 90)) :
    toLowerByte b = b := by
  simp only [toLowerByte, if_neg h]

/-- `toLowerByte` is idempotent on every byte. -/
lemma toLowerByte_idem (b : Nat) : toLowerByte (toLowerByte b) = toLowerByte b := by
  by_cases h : 65 ≤ b ∧ b ≤ 90
  · simp only [toLowerByte, if_pos h]
    rw [if_neg (by omega)]
  · rw [toLowerByte_of_not_upper h, toLowerByte_of_not_upper h]

/-- C7: `toLower` is the byte-wise ASCII lowercase transform: it preserves
the string's length, replaces each byte in 65..90 (ASCII `A`..`Z`) by the
corresponding lowercase byte 32 higher, and passes every other byte — in
particular every non-ASCII byte — through unchanged. -/
theorem toLower_bytewise_ascii (s : Str) :
    (toLower s).length = s.length ∧
    ∀ i, i < s.length →
      (toLower s).getD i 0 =
        (if 65 ≤ s.getD i 0 ∧ s.getD i 0 ≤ 90 then s.getD i 0 + 32
         else s.getD i 0) := by
  refine ⟨by simp [toLower], ?_⟩
  intro i hi
  have hmap : (toLower s).getD i 0 = toLowerByte (s.getD i 0) := by
    simp [toLower, List.getD_eq_getElem?_getD, List.getElem?_map,
      List.getElem?_eq_getElem, hi]
  rw [hmap]
  rfl

/-- C7 witness: the statement instantiated at the string `"Az"` and index 0,
an uppercase byte. -/
theorem toLower_bytewise_ascii_witness :
    0 < (strBytes "Az").length ∧
    (toLower (strBytes "Az")).getD 0 0 =
      (if 65 ≤ (strBytes "Az").getD 0 0 ∧ (strBytes "Az").getD 0 0 ≤ 90
       then (strBytes "Az").getD 0 0 + 32 else (strBytes "Az").getD 0 0) :=
  ⟨by decide, (toLower_bytewise_ascii (strBytes "Az")).2 0 (by decide)⟩

/-- C8: `toLower` is idempotent, and is the identity on strings consisting
entirely of already-lowercase ASCII letters. -/
theorem toLower_idempotent_and_lower_fixed (s : Str) :
    toLower (toLower s) = toLower s ∧
    ((∀ b ∈ s, 97 ≤ b ∧ b ≤ 122) → toLower s = s) := by
  constructor
  · simp only [toLower, List.map_map]
    exact List.map_congr_left fun b _ => by
      simpa [Function.comp] using toLowerByte_idem b
  · intro h
    simp only [toLower]
    conv_rhs => rw [← List.map_id s]
    exact List.map_congr_left fun b hb =>
      toLowerByte_of_not_upper (by have := h b hb; omega)

/-- C8 witness: the statement instantiated at the lowercase string `"abc"`. -/
theorem toLower_idempotent_and_lower_fixed_witness :
    toLower (strBytes "abc") = strBytes "abc" :=
  (toLower_idempotent_and_lower_fixed (strBytes "abc")).2 (by decide)

/-- The two fixed extension tables share no entry. -/
lemma imageVideo_disjoint : ∀ x ∈ imageExtensions, x ∉ videoExtensions := by decide

/-- C2: lowercased extensions in the image table are classified as images
and not as videos; symmetrically for the video table; extensions in neither
table match neither media type. -/
theorem isTargetFile_extension_tables (p : FsPath) :
    (toLower (extensionOf (filenameOf p)) ∈ imageExtensions →
      isTargetFile p MediaType.Images = true ∧
      isTargetFile p MediaType.Videos = false) ∧
    (toLower (extensionOf (filenameOf p)) ∈ videoExtensions →
      isTargetFile p MediaType.Videos = true ∧
      isTargetFile p MediaType.Images = false) ∧
    (toLower (extensionOf (filenameOf p)) ∉ imageExtensions →
      toLower (extensionOf (filenameOf p)) ∉ videoExtensions →
      isTargetFile p MediaType.Images = false ∧
      isTargetFile p MediaType.Videos = false) := by
  refine ⟨fun h => ⟨?_, ?_⟩, fun h => ⟨?_, ?_⟩, fun h1 h2 => ⟨?_, ?_⟩⟩
  · simp [isTargetFile, h]
  · simp only [isTargetFile]
    simp only [reduceCtorEq, if_false, decide_eq_false_iff_not]
    exact imageVideo_disjoint _ h
  · simp only [isTargetFile]
    simp only [reduceCtorEq, if_false, decide_eq_true_eq]
    exact h
  · simp only [isTargetFile, eq_self_iff_true, if_true, decide_eq_false_iff_not]
    exact fun hmem => (imageVideo_disjoint _ hmem) h
  · simp [isTargetFile, h1]
  · simp only [isTargetFile]
    simp only [reduceCtorEq, if_false, decide_eq_false_iff_not]
    exact h2

/-- C2 witness: the statement instantiated at the mixed-case image file of
the repository's unit tests. -/
theorem isTargetFile_extension_tables_witness :
    isTargetFile [strBytes "photo.JPEG"] MediaType.Images = true ∧
    isTargetFile [strBytes "photo.JPEG"] MediaType.Videos = false :=
  (isTargetFile_extension_tables [strBytes "photo.JPEG"]).1 (by decide)

/-- The filename component of a path formed by appending one component. -/
lemma filenameOf_append (dirs : List Str) (name : Str) :
    filenameOf (dirs ++ [name]) = name := by
  simp [filenameOf, List.getLast?_concat]

/-- Every listed extension string, taken as a whole filename, is a dotfile
with an empty `fs::path` extension. -/
lemma listed_ext_extensionOf :
    ∀ x ∈ imageExtensions ++ videoExtensions, extensionOf x = [] := by decide

/-- The index reported by `lastDotIdx` is a position inside the string. -/
lemma lastDotIdx_lt_length :
    ∀ (f : Str) (i : Nat), lastDotIdx f = some i → i < f.length := by
  intro f
  induction f with
  | nil => intro i h; simp [lastDotIdx] at h
  | cons b rest ih =>
    intro i h
    rw [lastDotIdx] at h
    cases hrest : lastDotIdx rest with
    | some j =>
      rw [hrest] at h
      injection h with h2
      have := ih j hrest
      simp only [List.length_cons]
      omega
    | none =>
      rw [hrest] at h
      by_cases hb : b = 46
      · rw [if_pos hb] at h
        injection h with h2
        simp only [List.length_cons]
        omega
      · rw [if_neg hb] at h
        exact absurd h (by simp)

/-- A filename with a nonempty extension also has a nonempty stem. -/
lemma stemOf_ne_nil_of_ext_ne_nil (f : Str) (h : extensionOf f ≠ []) :
    stemOf f ≠ [] := by
  by_cases hdot : f = strBytes "." ∨ f = strBytes ".."
  · exact absurd (by simp [extensionOf, hdot]) h
  · cases hidx : lastDotIdx f with
    | none => exact absurd (by simp [extensionOf, hdot, hidx]) h
    | some i =>
      cases i with
      | zero => exact absurd (by simp [extensionOf, hdot, hidx]) h
      | succ j =>
        have hlen := lastDotIdx_lt_length f (j + 1) hidx
        simp only [stemOf, if_neg hdot, hidx]
        intro htake
        have := congrArg List.length htake
        simp only [List.length_take, List.length_nil] at this
        omega

/-- A path classified as a target has a nonempty `fs::path` extension. -/
lemma extensionOf_ne_nil_of_isTargetFile (p : FsPath) (m : MediaType)
    (h : isTargetFile p m = true) : extensionOf (filenameOf p) ≠ [] := by
  intro hnil
  have himg : ¬ (([] : Str) ∈ imageExtensions) := by decide
  have hvid : ¬ (([] : Str) ∈ videoExtensions) := by decide
  cases m with
  | Images =>
    rw [isTargetFile] at h
    simp only [hnil, eq_self_iff_true, if_true, decide_eq_true_eq] at h
    simp only [toLower, List.map_nil] at h
    exact himg h
  | Videos =>
    rw [isTargetFile] at h
    simp only [hnil, reduceCtorEq, if_false, decide_eq_true_eq] at h
    simp only [toLower, List.map_nil] at h
    exact hvid h

/-- C10: a bare dotfile whose whole filename equals a listed extension
string (for example a file named exactly `.jpg`) has an empty `fs::path`
extension and is classified as a target by neither media type; in general a
classified target always has a nonempty stem followed by its nonempty
extension. -/
theorem isTargetFile_bare_dotfile (name : Str)
    (hname : name ∈ imageExtensions ++ videoExtensions) :
    (∀ dirs : List Str,
      extensionOf (filenameOf (dirs ++ [name])) = [] ∧
      isTargetFile (dirs ++ [name]) MediaType.Images = false ∧
      isTargetFile (dirs ++ [name]) MediaType.Videos = false) ∧
    (∀ (p : FsPath) (m : MediaType), isTargetFile p m = true →
      stemOf (filenameOf p) ≠ [] ∧ extensionOf (filenameOf p) ≠ []) := by
  constructor
  · intro dirs
    have hext : extensionOf name = [] := listed_ext_extensionOf name hname
    have himg : ¬ (([] : Str) ∈ imageExtensions) := by decide
    have hvid : ¬ (([] : Str) ∈ videoExtensions) := by decide
    refine ⟨by rw [filenameOf_append]; exact hext, ?_, ?_⟩
    · rw [isTargetFile]
      simp only [filenameOf_append, hext, toLower, List.map_nil, eq_self_iff_true,
        if_true, decide_eq_false_iff_not]
      exact himg
    · rw [isTargetFile]
      simp only [filenameOf_append, hext, toLower, List.map_nil, reduceCtorEq,
        if_false, decide_eq_false_iff_not]
      exact hvid
  · intro p m h
    have hext := extensionOf_ne_nil_of_isTargetFile p m h
    exact ⟨stemOf_ne_nil_of_ext_ne_nil _ hext, hext⟩

/-- C10 witness: the statement instantiated at the bare dotfile `.jpg` in
the filesystem root. -/
theorem isTargetFile_bare_dotfile_witness :
    extensionOf (filenameOf ([] ++ [strBytes ".jpg"])) = [] ∧
    isTargetFile ([] ++ [strBytes ".jpg"]) MediaType.Images = false ∧
    isTargetFile ([] ++ [strBytes ".jpg"]) MediaType.Videos = false :=
  (isTargetFile_bare_dotfile (strBytes ".jpg") (by decide)).1 []

/-- Characterization of a successful probe-loop run: the returned path is
the first numbered candidate, at or after the starting counter, at which no
entry exists. -/
lemma probeLoop_some_spec (ex : FsPath → Bool) (dd : FsPath) (s t : Str) :
    ∀ (fuel c : Nat) (p : FsPath), probeLoop ex dd s t c fuel = some p →
      ∃ N, c ≤ N ∧ p = dd ++ [numberedName s t N] ∧ ex p = false ∧
        ∀ k, c ≤ k → k < N → ex (dd ++ [numberedName s t k]) = true := by
  intro fuel
  induction fuel with
  | zero => intro c p h; simp [probeLoop] at h
  | succ fuel ih =>
    intro c p h
    simp only [probeLoop] at h
    split at h
    · rename_i hex
      obtain ⟨N, hcN, hp, hfree, hall⟩ := ih (c + 1) p h
      refine ⟨N, by omega, hp, hfree, fun k hck hkN => ?_⟩
      rcases Nat.eq_or_lt_of_le hck with heq | hlt
      · subst heq; exact hex
      · exact hall k hlt hkN
    · rename_i hex
      injection h with h2
      subst h2
      refine ⟨c, Nat.le_refl c, rfl, ?_, fun k hck hkN => absurd hkN (by omega)⟩
      simpa using hex

/-- Characterization of a successful `getUniqueDestinationPath` run: the
returned path is free; it is `destinationDir/filename` when that path is
free, and otherwise the numbered candidate with the least counter `N ≥ 1`
whose path is free. -/
lemma getUnique_some_spec (ex : FsPath → Bool) (dd : FsPath) (filename : Str)
    (fuel : Nat) (p : FsPath)
    (h : getUniqueDestinationPath ex dd filename fuel = some p) :
    ex p = false ∧
    (ex (dd ++ [filename]) = false → p = dd ++ [filename]) ∧
    (ex (dd ++ [filename]) = true →
      ∃ N, 1 ≤ N ∧
        p = dd ++ [numberedName (stemOf filename) (extensionOf filename) N] ∧
        ∀ k, 1 ≤ k → k < N →
          ex (dd ++ [numberedName (stemOf filename) (extensionOf filename) k]) = true) := by
  simp only [getUniqueDestinationPath] at h
  split at h
  · rename_i hex
    obtain ⟨N, h1N, hp, hfree, hall⟩ := probeLoop_some_spec ex dd _ _ fuel 1 p h
    exact ⟨hfree, fun hcontra => absurd hex (by simp [hcontra]),
      fun _ => ⟨N, h1N, hp, hall⟩⟩
  · rename_i hex
    injection h with h2
    subst h2
    have hfalse : ex (dd ++ [filename]) = false := by simpa using hex
    exact ⟨hfalse, fun _ => rfl, fun htrue => absurd htrue (by simp [hfalse])⟩

/-- C1: a successful `getUniqueDestinationPath` run returns a path at which
no filesystem entry exists; it returns `destinationDir/filename` itself when
that path is free, and otherwise `destinationDir/stem_N.ext` where `N ≥ 1`
is least such that the candidate is free (every smaller counter from 1 up
collides). -/
theorem getUniqueDestinationPath_first_free (ex : FsPath → Bool) (dd : FsPath)
    (filename : Str) (fuel : Nat) (p : FsPath)
    (h : getUniqueDestinationPath ex dd filename fuel = some p) :
    ex p = false ∧
    (ex (dd ++ [filename]) = false → p = dd ++ [filename]) ∧
    (ex (dd ++ [filename]) = true →
      ∃ N, 1 ≤ N ∧
        p = dd ++ [numberedName (stemOf filename) (extensionOf filename) N] ∧
        ∀ k, 1 ≤ k → k < N →
          ex (dd ++ [numberedName (stemOf filename) (extensionOf filename) k]) = true) :=
  getUnique_some_spec ex dd filename fuel p h

/-- C1 witness: the statement instantiated at the collision scenario of the
repository's unit tests (`capture.png` and `capture_1.png` taken), where the
returned path is `capture_2.png`. -/
theorem getUniqueDestinationPath_first_free_witness :
    getUniqueDestinationPath (memFS uniqW) [strBytes "dest"]
        (strBytes "capture.png") 3
      = some [strBytes "dest", strBytes "capture_2.png"] ∧
    memFS uniqW [strBytes "dest", strBytes "capture_2.png"] = false :=
  ⟨by decide,
   (getUniqueDestinationPath_first_free (memFS uniqW) [strBytes "dest"]
      (strBytes "capture.png") 3 [strBytes "dest", strBytes "capture_2.png"]
      (by decide)).1⟩

/-- `ofDigitsRev` recovers the number from its fueled digit list. -/
lemma ofDigitsRev_toDigitsRevFuel :
    ∀ (fuel n : Nat), n < fuel → ofDigitsRev (toDigitsRevFuel fuel n) = n := by
  intro fuel
  induction fuel with
  | zero => intro n h; omega
  | succ fuel ih =>
    intro n h
    simp only [toDigitsRevFuel]
    by_cases h10 : n < 10
    · rw [if_pos h10]; simp [ofDigitsRev]
    · rw [if_neg h10]
      simp only [ofDigitsRev]
      have hdiv : n / 10 < n := Nat.div_lt_self (by omega) (by omega)
      rw [ih (n / 10) (by omega)]
      exact Nat.mod_add_div n 10

/-- Distinct numbers have distinct decimal strings. -/
lemma natToString_injective : Function.Injective natToString := by
  intro m n h
  simp only [natToString] at h
  have h1 := List.reverse_injective h
  have h2 := List.map_injective_iff.mpr (fun a b hab => by omega) h1
  calc m = ofDigitsRev (toDigitsRevFuel (m + 1) m) :=
        (ofDigitsRev_toDigitsRevFuel _ _ (Nat.lt_succ_self m)).symm
    _ = ofDigitsRev (toDigitsRevFuel (n + 1) n) := by rw [h2]
    _ = n := ofDigitsRev_toDigitsRevFuel _ _ (Nat.lt_succ_self n)

/-- Distinct counters produce distinct numbered candidate filenames. -/
lemma numberedName_inj (s t : Str) {m n : Nat}
    (h : numberedName s t m = numberedName s t n) : m = n := by
  simp only [numberedName] at h
  have h2 := List.append_cancel_right h
  have h3 := List.append_cancel_left h2
  have h4 : natToString m = natToString n := by injection h3
  exact natToString_injective h4

/-- Pigeonhole: over a finite filesystem of `L` entries, one of the first
`L + 1` numbered candidates is free. -/
lemma exists_free_counter (entries : FS) (dd : FsPath) (s t : Str) :
    ∃ j, j < entries.length + 1 ∧
      memFS entries (dd ++ [numberedName s t (1 + j)]) = false := by
  by_contra hcon
  push_neg at hcon
  have hmem : ∀ j, j < entries.length + 1 →
      (dd ++ [numberedName s t (1 + j)]) ∈ entries := by
    intro j hj
    have hne := hcon j hj
    have hb : memFS entries (dd ++ [numberedName s t (1 + j)]) = true := by
      cases hx : memFS entries (dd ++ [numberedName s t (1 + j)]) with
      | false => exact absurd hx hne
      | true => rfl
    simpa [memFS] using hb
  have hinj : Function.Injective (fun j : Nat => dd ++ [numberedName s t (1 + j)]) := by
    intro a b hab
    have h2 := List.append_cancel_left hab
    have h3 : numberedName s t (1 + a) = numberedName s t (1 + b) := by
      injection h2
    have := numberedName_inj s t h3
    omega
  have hnodup : ((List.range (entries.length + 1)).map
      (fun j => dd ++ [numberedName s t (1 + j)])).Nodup :=
    (List.nodup_range _).map hinj
  have hsub : ∀ x ∈ (List.range (entries.length + 1)).map
      (fun j => dd ++ [numberedName s t (1 + j)]), x ∈ entries := by
    intro x hx
    obtain ⟨j, hj, rfl⟩ := List.mem_map.mp hx
    exact hmem j (List.mem_range.mp hj)
  have hcard1 := List.toFinset_card_of_nodup hnodup
  have hsubF : ((List.range (entries.length + 1)).map
      (fun j => dd ++ [numberedName s t (1 + j)])).toFinset ⊆ entries.toFinset := by
    intro x hx
    rw [List.mem_toFinset] at hx ⊢
    exact hsub x hx
  have hcard2 : entries.toFinset.card ≤ entries.length := entries.toFinset_card_le
  have hcard3 := Finset.card_le_card hsubF
  simp only [List.length_map, List.length_range] at hcard1
  omega

/-- The probe loop succeeds as soon as its fuel window contains a free
candidate. -/
lemma probeLoop_some_of_free (ex : FsPath → Bool) (dd : FsPath) (s t : Str) :
    ∀ (fuel c : Nat),
      (∃ j, j < fuel ∧ ex (dd ++ [numberedName s t (c + j)]) = false) →
      ∃ p, probeLoop ex dd s t c fuel = some p := by
  intro fuel
  induction fuel with
  | zero =>
    intro c h
    obtain ⟨j, hj, _⟩ := h
    omega
  | succ fuel ih =>
    intro c h
    obtain ⟨j, hj, hfree⟩ := h
    simp only [probeLoop]
    cases hex : ex (dd ++ [numberedName s t c]) with
    | false => exact ⟨_, by rw [if_neg (by simp)]⟩
    | true =>
      rw [if_pos rfl]
      apply ih (c + 1)
      cases j with
      | zero =>
        rw [Nat.add_zero] at hfree
        rw [hex] at hfree
        cases hfree
      | succ j2 =>
        refine ⟨j2, by omega, ?_⟩
        have harith : c + 1 + j2 = c + (j2 + 1) := by omega
        rw [harith]
        exact hfree

/-- C6: over any finite filesystem the probe loop of
`getUniqueDestinationPath` terminates — fuel `entries.length + 1` already
suffices — and the returned path is the first free candidate: the base name
when free, else the numbered candidate with the least free counter `N ≥ 1`. -/
theorem getUniqueDestinationPath_terminates (entries : FS) (dd : FsPath)
    (filename : Str) :
    ∃ p, getUniqueDestinationPath (memFS entries) dd filename
          (entries.length + 1) = some p ∧
      memFS entries p = false ∧
      (memFS entries (dd ++ [filename]) = false → p = dd ++ [filename]) ∧
      (memFS entries (dd ++ [filename]) = true →
        ∃ N, 1 ≤ N ∧
          p = dd ++ [numberedName (stemOf filename) (extensionOf filename) N] ∧
          ∀ k, 1 ≤ k → k < N →
            memFS entries
              (dd ++ [numberedName (stemOf filename) (extensionOf filename) k])
              = true) := by
  have hsome : ∃ p, getUniqueDestinationPath (memFS entries) dd filename
      (entries.length + 1) = some p := by
    cases hex : memFS entries (dd ++ [filename]) with
    | false =>
      exact ⟨dd ++ [filename], by
        simp only [getUniqueDestinationPath]
        rw [if_neg (by simp [hex])]⟩
    | true =>
      obtain ⟨j, hj, hfree⟩ :=
        exists_free_counter entries dd (stemOf filename) (extensionOf filename)
      obtain ⟨p, hp⟩ := probeLoop_some_of_free (memFS entries) dd (stemOf filename)
        (extensionOf filename) (entries.length + 1) 1 ⟨j, hj, hfree⟩
      exact ⟨p, by
        simp only [getUniqueDestinationPath]
        rw [if_pos hex]
        exact hp⟩
  obtain ⟨p, hp⟩ := hsome
  obtain ⟨h1, h2, h3⟩ := getUnique_some_spec _ _ _ _ _ hp
  exact ⟨p, hp, h1, h2, h3⟩

/-- C3: for a matching regular file the driver attempts the rename first;
on rename success the file is counted and logged as moved; on rename
failure a successful copy+delete fallback is counted as moved and logged
with the distinguished copy+delete line; if the fallback also fails, the
skipped counter is incremented and a skip line is logged, and in every case
the traversal continues with the remaining entries. -/
theorem step_move_fallback_sequence (dd : FsPath) (m : MediaType)
    (st : RunState) (e : Entry) (o : Oracles)
    (hreg : e.isRegularFile = true)
    (hmatch : isTargetFile (Entry.path e) m = true) :
    (o.renameOk = true →
      step dd m st e o =
        { fs := fsRename st.fs (Entry.path e) (finalDestinationFor st.fs dd e),
          movedCount := st.movedCount + 1,
          skippedCount := st.skippedCount,
          log := st.log ++
            [LogLine.moved (Entry.path e) (finalDestinationFor st.fs dd e)] }) ∧
    (o.renameOk = false → o.copyOk = true → o.removeOk = true →
      step dd m st e o =
        { fs := fsRemove (fsCopy st.fs (finalDestinationFor st.fs dd e))
            (Entry.path e),
          movedCount := st.movedCount + 1,
          skippedCount := st.skippedCount,
          log := st.log ++
            [LogLine.movedViaCopy (Entry.path e)
              (finalDestinationFor st.fs dd e)] }) ∧
    (o.renameOk = false → (o.copyOk = false ∨ o.removeOk = false) →
      (step dd m st e o).movedCount = st.movedCount ∧
      (step dd m st e o).skippedCount = st.skippedCount + 1 ∧
      (step dd m st e o).log = st.log ++ [LogLine.skippedFile (Entry.path e)]) ∧
    (∀ rest, runTraversal dd m ((e, o) :: rest) st
        = runTraversal dd m rest (step dd m st e o)) := by
  refine ⟨?_, ?_, ?_, fun rest => rfl⟩
  · intro hrn
    simp [step, hreg, hmatch, hrn]
  · intro hrn hcp hrm
    simp [step, hreg, hmatch, hrn, hcp, hrm]
  · intro hrn hor
    rcases hor with hcp | hrm
    · refine ⟨?_, ?_, ?_⟩ <;> simp [step, hreg, hmatch, hrn, hcp]
    · by_cases hcp : o.copyOk = true
      · refine ⟨?_, ?_, ?_⟩ <;> simp [step, hreg, hmatch, hrn, hcp, hrm]
      · have hcf : o.copyOk = false := by simpa using hcp
        refine ⟨?_, ?_, ?_⟩ <;> simp [step, hreg, hmatch, hrn, hcf]

/-- C3 witness: the rename-success case of the statement instantiated at a
concrete matching regular file. -/
theorem step_move_fallback_sequence_witness :
    step ddW MediaType.Images stW eW ⟨true, true, true⟩ =
      { fs := fsRename stW.fs (Entry.path eW) (finalDestinationFor stW.fs ddW eW),
        movedCount := stW.movedCount + 1,
        skippedCount := stW.skippedCount,
        log := stW.log ++
          [LogLine.moved (Entry.path eW) (finalDestinationFor stW.fs ddW eW)] } :=
  (step_move_fallback_sequence ddW MediaType.Images stW eW ⟨true, true, true⟩
    (by decide) (by decide)).1 rfl

/-- C4 counterexample: with rename failing, the fallback copy succeeding and
the source delete failing, the per-file step ends in the skipped outcome,
yet a new entry is left at the computed destination path, so the filesystem
state is not unchanged. -/
theorem step_skipped_leaves_destination_copy :
    (step ddW MediaType.Images stW eW ⟨false, true, false⟩).skippedCount
        = stW.skippedCount + 1 ∧
    (step ddW MediaType.Images stW eW ⟨false, true, false⟩).log
        = stW.log ++ [LogLine.skippedFile (Entry.path eW)] ∧
    finalDestinationFor stW.fs ddW eW
        ∈ (step ddW MediaType.Images stW eW ⟨false, true, false⟩).fs ∧
    finalDestinationFor stW.fs ddW eW ∉ stW.fs ∧
    (step ddW MediaType.Images stW eW ⟨false, true, false⟩).fs ≠ stW.fs := by
  decide

/-- C4 amended: when the per-file step ends in the skipped outcome the
source file is left in place; if the skip is because the fallback copy
itself failed the filesystem is completely unchanged, while if the copy
succeeded and only the source delete failed the copied file additionally
remains at the computed destination path. -/
theorem step_skipped_fs_effect (dd : FsPath) (m : MediaType) (st : RunState)
    (e : Entry) (o : Oracles)
    (hreg : e.isRegularFile = true)
    (hmatch : isTargetFile (Entry.path e) m = true)
    (hrn : o.renameOk = false) :
    (o.copyOk = false →
      (step dd m st e o).fs = st.fs ∧
      (step dd m st e o).skippedCount = st.skippedCount + 1) ∧
    (o.copyOk = true → o.removeOk = false →
      (step dd m st e o).fs = fsCopy st.fs (finalDestinationFor st.fs dd e) ∧
      (step dd m st e o).skippedCount = st.skippedCount + 1) ∧
    ((o.copyOk = false ∨ o.removeOk = false) → Entry.path e ∈ st.fs →
      Entry.path e ∈ (step dd m st e o).fs) := by
  refine ⟨?_, ?_, ?_⟩
  · intro hcp
    constructor <;> simp [step, hreg, hmatch, hrn, hcp]
  · intro hcp hrm
    constructor <;> simp [step, hreg, hmatch, hrn, hcp, hrm, fsCopy]
  · intro hor hsrc
    rcases hor with hcp | hrm
    · simpa [step, hreg, hmatch, hrn, hcp] using hsrc
    · by_cases hcp : o.copyOk = true
      · simp [step, hreg, hmatch, hrn, hcp, hrm, fsCopy]
        exact Or.inr hsrc
      · have hcf : o.copyOk = false := by simpa using hcp
        simpa [step, hreg, hmatch, hrn, hcf] using hsrc

/-- C4 amended witness: the copy-failed case of the statement instantiated
at a concrete matching regular file, where the filesystem is unchanged. -/
theorem step_skipped_fs_effect_witness :
    (step ddW MediaType.Images stW eW ⟨false, false, true⟩).fs = stW.fs ∧
    (step ddW MediaType.Images stW eW ⟨false, false, true⟩).skippedCount
        = stW.skippedCount + 1 :=
  (step_skipped_fs_effect ddW MediaType.Images stW eW ⟨false, false, true⟩
    (by decide) (by decide) rfl).1 rfl

/-- A successful `getUniqueDestinationPath` run yields a path directly in
the destination directory. -/
lemma getUnique_some_shape (ex : FsPath → Bool) (dd : FsPath) (filename : Str)
    (fuel : Nat) (p : FsPath)
    (h : getUniqueDestinationPath ex dd filename fuel = some p) :
    ∃ nm, p = dd ++ [nm] := by
  obtain ⟨hfree, hbase, hnum⟩ := getUnique_some_spec ex dd filename fuel p h
  cases hex : ex (dd ++ [filename]) with
  | false => exact ⟨filename, hbase hex⟩
  | true =>
    obtain ⟨N, _, hp, _⟩ := hnum hex
    exact ⟨_, hp⟩

/-- C5: the destination the driver passes to the uniquifier depends only on
the entry's base filename — entries with the same filename in different
subdirectories get the same computed destination — and the computed
destination always lies directly in the destination directory root. -/
theorem finalDestination_flattens (fs : FS) (dd : FsPath)
    (dir1 dir2 : List Str) (name : Str) (b1 b2 : Bool) :
    finalDestinationFor fs dd ⟨dir1, name, b1⟩
        = finalDestinationFor fs dd ⟨dir2, name, b2⟩ ∧
    ∃ nm, finalDestinationFor fs dd ⟨dir1, name, b1⟩ = dd ++ [nm] := by
  constructor
  · simp only [finalDestinationFor, Entry.path]
    rw [filenameOf_append, filenameOf_append]
  · simp only [finalDestinationFor, Entry.path, filenameOf_append]
    cases h : getUniqueDestinationPath (memFS fs) dd name (fs.length + 1) with
    | none => exact ⟨name, rfl⟩
    | some p =>
      obtain ⟨nm, hnm⟩ := getUnique_some_shape _ _ _ _ _ h
      exact ⟨nm, hnm⟩

/-- C9: on any input-validation failure — a menu choice other than `1` or
`2`, a missing or non-directory source, or an existing destination
equivalent to the source — `main` exits with status 1, reports exactly one
fatal error line, performs no filesystem mutation, and processes no file. -/
theorem mainRun_validation_failure (choiceInput : Str)
    (srcExists srcIsDir destExists equiv createOk : Bool)
    (dd : FsPath) (entries : List (Entry × Oracles)) (fs0 : FS)
    (h : (choiceInput ≠ strBytes "1" ∧ choiceInput ≠ strBytes "2") ∨
         srcExists = false ∨ srcIsDir = false ∨
         (destExists = true ∧ equiv = true)) :
    (mainRun choiceInput srcExists srcIsDir destExists equiv createOk
        dd entries fs0).exitCode = 1 ∧
    (mainRun choiceInput srcExists srcIsDir destExists equiv createOk
        dd entries fs0).fs = fs0 ∧
    (mainRun choiceInput srcExists srcIsDir destExists equiv createOk
        dd entries fs0).movedCount = 0 ∧
    (mainRun choiceInput srcExists srcIsDir destExists equiv createOk
        dd entries fs0).skippedCount = 0 ∧
    (mainRun choiceInput srcExists srcIsDir destExists equiv createOk
        dd entries fs0).log = [] ∧
    (mainRun choiceInput srcExists srcIsDir destExists equiv createOk
        dd entries fs0).errs.length = 1 := by
  have hmain : ∃ er, mainRun choiceInput srcExists srcIsDir destExists equiv
      createOk dd entries fs0 = ⟨1, fs0, 0, 0, [], [er]⟩ := by
    rcases h with ⟨h1, h2⟩ | h2 | h2 | ⟨h1, h2⟩
    · exact ⟨ErrLine.invalidChoice, by simp [mainRun, mediaTypeOfChoice, h1, h2]⟩
    · cases hmt : mediaTypeOfChoice choiceInput with
      | none => exact ⟨ErrLine.invalidChoice, by simp [mainRun, hmt]⟩
      | some mt => exact ⟨ErrLine.badSource, by simp [mainRun, hmt, h2]⟩
    · cases hmt : mediaTypeOfChoice choiceInput with
      | none => exact ⟨ErrLine.invalidChoice, by simp [mainRun, hmt]⟩
      | some mt => exact ⟨ErrLine.badSource, by simp [mainRun, hmt, h2]⟩
    · cases hmt : mediaTypeOfChoice choiceInput with
      | none => exact ⟨ErrLine.invalidChoice, by simp [mainRun, hmt]⟩
      | some mt =>
        by_cases hsrc : srcExists = false ∨ srcIsDir = false
        · exact ⟨ErrLine.badSource, by
            simp only [mainRun, hmt]
            rw [if_pos hsrc]⟩
        · exact ⟨ErrLine.sameSourceAndDestination, by
            simp only [mainRun, hmt]
            rw [if_neg hsrc, if_pos ⟨h1, h2⟩]⟩
  obtain ⟨er, her⟩ := hmain
  simp [her]

/-- C9 witness: the statement instantiated at the invalid menu choice `3`
over an empty initial filesystem. -/
theorem mainRun_validation_failure_witness :
    (mainRun (strBytes "3") true true false false true ddW [] []).exitCode = 1 ∧
    (mainRun (strBytes "3") true true false false true ddW [] []).fs = [] ∧
    (mainRun (strBytes "3") true true false false true ddW [] []).movedCount = 0 ∧
    (mainRun (strBytes "3") true true false false true ddW [] []).skippedCount = 0 ∧
    (mainRun (strBytes "3") true true false false true ddW [] []).log = [] ∧
    (mainRun (strBytes "3") true true false false true ddW [] []).errs.length = 1 :=
  mainRun_validation_failure (strBytes "3") true true false false true ddW [] []
    (Or.inl ⟨by decide, by decide⟩)

/-- C5 witness: the statement instantiated at two entries with the same base
filename in different subdirectories. -/
theorem finalDestination_flattens_witness :
    finalDestinationFor stW.fs ddW ⟨[strBytes "src"], strBytes "a.jpg", true⟩
        = finalDestinationFor stW.fs ddW
            ⟨[strBytes "src", strBytes "sub"], strBytes "a.jpg", true⟩ ∧
    ∃ nm, finalDestinationFor stW.fs ddW ⟨[strBytes "src"], strBytes "a.jpg", true⟩
        = ddW ++ [nm] :=
  finalDestination_flattens stW.fs ddW [strBytes "src"]
    [strBytes "src", strBytes "sub"] (strBytes "a.jpg") true true

/-- C6 witness: the statement instantiated at the two-entry collision
filesystem of the repository's unit tests. -/
theorem getUniqueDestinationPath_terminates_witness :
    ∃ p, getUniqueDestinationPath (memFS uniqW) [strBytes "dest"]
          (strBytes "capture.png") (uniqW.length + 1) = some p ∧
      memFS uniqW p = false ∧
      (memFS uniqW ([strBytes "dest"] ++ [strBytes "capture.png"]) = false →
        p = [strBytes "dest"] ++ [strBytes "capture.png"]) ∧
      (memFS uniqW ([strBytes "dest"] ++ [strBytes "capture.png"]) = true →
        ∃ N, 1 ≤ N ∧
          p = [strBytes "dest"] ++
            [numberedName (stemOf (strBytes "capture.png"))
              (extensionOf (strBytes "capture.png")) N] ∧
          ∀ k, 1 ≤ k → k < N →
            memFS uniqW ([strBytes "dest"] ++
              [numberedName (stemOf (strBytes "capture.png"))
                (extensionOf (strBytes "capture.png")) k]) = true) :=
  getUniqueDestinationPath_terminates uniqW [strBytes "dest"]
    (strBytes "capture.png")
